import Mathlib

/-!
Formal model of `concordance_ratio_model.py`.

Conventions of the shallow embedding:

* Calendar dates are rational numbers counting days from an arbitrary epoch
  (pandas timestamps are totally ordered and only date differences, measured
  in days via `total_seconds / 86400`, enter the computation, so the choice
  of epoch is irrelevant).  A missing date (`NaT`) is `Option.none`; pandas
  comparisons with `NaT` are false, which the embedding mirrors by dropping
  `none` dates in every comparison-based filter.
* A row of the input DataFrame is a `Row`: patient identifier, optional
  date, and the indicator flag columns as an association list.  The
  column-projection `df[df[indicator] == 1][[date_col, indicator,
  patient_col]]` (line 109) produces `FRow` values; after
  `prepare_df_for_concordance_ratio` all dates are concrete, giving `PRow`
  (the anchor and sentinel rows carry `none` in the indicator column,
  modelling the `NaN` introduced by `pd.concat` on line 69).
* `sort_values(by=[patient_col, date_col])` is modelled by a stable
  insertion sort on the lexicographic key (patient, date); pandas does not
  specify the order of rows with equal keys, and every quantity computed
  downstream is invariant under it.  `drop_duplicates(keep="first")` is
  `dedupFirst`, which drops exact duplicate rows keeping the first.
* `groupby(patient_col)` operations are embedded by their per-group
  meaning: `shift(1)` forms consecutive pairs inside each patient group,
  `transform("sum")` is the per-patient sum, and
  `drop_duplicates(subset=patient_col, keep="first")` yields one entry per
  patient, in order of first appearance.
-/

namespace ConcordanceModel

/-- Maximum of two rationals written out as a conditional so that it
evaluates by kernel reduction; used for `Series.clip(lower=...)` (line 54)
and `Series.clip(lower=0)` (line 127), both of which are elementwise
maxima. -/
def ratMax (a b : ℚ) : ℚ := if a ≤ b then b else a

/-- Remove duplicates from a list keeping the first occurrence of every
element; this is the semantics of pandas `drop_duplicates(keep="first")`
(line 73) and of `Series.unique()` (lines 57, 187). -/
def dedupFirst {α : Type} [DecidableEq α] : List α → List α
  | [] => []
  | x :: xs => x :: (dedupFirst xs).filter fun y => decide (y ≠ x)

/-- Maximum of a list of rationals, `none` on the empty list; this is the
semantics of `groupby(...)[date_col].max()` on one group (line 51). -/
def listMax : List ℚ → Option ℚ
  | [] => none
  | x :: xs =>
    match listMax xs with
    | none => some x
    | some m => some (ratMax x m)

/-- First-match association-list lookup (used for flag columns and for
key-based merges). -/
def alookup {α β : Type} [DecidableEq α] (k : α) : List (α × β) → Option β
  | [] => none
  | kv :: rest => if kv.1 = k then some kv.2 else alookup k rest

/-- Character-list prefix test, the meaning of `str.startswith` used by
`columns.str.startswith("concordance")` on line 205. -/
def strStarts : List Char → List Char → Bool
  | [], _ => true
  | _ :: _, [] => false
  | c :: cs, d :: ds => c == d && strStarts cs ds

/-- Test whether a column name starts with `"concordance"` (line 205). -/
def startsWithConcordance (name : String) : Bool :=
  strStarts "concordance".data name.data

/-- Lower-casing of an indicator name, the meaning of `key.lower()` /
`ind.lower()` (lines 244, 252, 198, 346). -/
def lowerStr (x : String) : String :=
  String.mk (x.data.map Char.toLower)

/-- A row of the caller-facing DataFrame: patient identifier, activity date
(`none` = `NaT`), and the binary indicator columns. -/
structure Row where
  patient : ℕ
  date : Option ℚ
  flags : List (String × ℚ)
deriving DecidableEq

/-- A row of the three-column frame `df[df[indicator] == 1][[date_col,
indicator, patient_col]]` passed to `prepare_df_for_concordance_ratio`
(line 109-112).  The indicator column is `Option ℚ` because the anchor and
sentinel rows created inside the preparation carry `NaN` there. -/
structure FRow where
  date : Option ℚ
  flag : Option ℚ
  patient : ℕ
deriving DecidableEq

/-- A row of the prepared frame: every surviving row has a concrete date
(`NaT` dates never pass the window filter, anchors are clipped or filled
with the dummy date, sentinels are synthetic). -/
structure PRow where
  date : ℚ
  flag : Option ℚ
  patient : ℕ
deriving DecidableEq

/-- Lexicographic (patient, date) order used by
`sort_values(by=[patient_col, date_col])` on line 70. -/
def rowLE (a b : PRow) : Prop :=
  a.patient < b.patient ∨ (a.patient = b.patient ∧ a.date ≤ b.date)

instance : DecidableRel rowLE := fun a b =>
  inferInstanceAs (Decidable (a.patient < b.patient ∨ (a.patient = b.patient ∧ a.date ≤ b.date)))

instance : IsTrans PRow rowLE where
  trans a b c hab hbc := by
    rcases hab with h1 | ⟨h1, h1d⟩ <;> rcases hbc with h2 | ⟨h2, h2d⟩
    · exact Or.inl (Nat.lt_trans h1 h2)
    · exact Or.inl (h2 ▸ h1)
    · exact Or.inl (h1 ▸ h2)
    · exact Or.inr ⟨h1.trans h2, h1d.trans h2d⟩

instance : IsTotal PRow rowLE where
  total a b := by
    rcases Nat.lt_trichotomy a.patient b.patient with h | h | h
    · exact Or.inl (Or.inl h)
    · rcases le_total a.date b.date with hd | hd
      · exact Or.inl (Or.inr ⟨h, hd⟩)
      · exact Or.inr (Or.inr ⟨h.symm, hd⟩)
    · exact Or.inr (Or.inl h)

/-- Unique patients of the three-column frame in order of first appearance
(`df[patient_col].unique()`, line 57). -/
def uniquePatients (df : List FRow) : List ℕ :=
  dedupFirst (df.map FRow.patient)

/-- Row contribution to the prior-date search: the date of `r` when `r`
belongs to patient `p` and lies strictly before the start (the row-level
meaning of the boolean mask `df[date_col] < evaluation_start_date`
restricted to one `groupby` group, line 51); `NaT` dates compare false and
are skipped. -/
def beforeDate (s : ℚ) (p : ℕ) (r : FRow) : Option ℚ :=
  match r.date with
  | none => none
  | some d => if r.patient = p ∧ d < s then some d else none

/-- Most recent activity date of patient `p` strictly before the evaluation
start (`df[df[date_col] < evaluation_start_date].groupby(patient_col)
[date_col].max()`, line 51). -/
def lastDateBefore (df : List FRow) (s : ℚ) (p : ℕ) : Option ℚ :=
  listMax (df.filterMap (beforeDate s p))

/-- Date of the single retained row before the evaluation start for patient
`p`: the clip at the dummy date `evaluation_start_date − validity_duration`
(line 54) together with the `fillna(dummy_date)` for patients with no prior
date (lines 57-59). -/
def anchorDate (df : List FRow) (validity_duration s : ℚ) (p : ℕ) : ℚ :=
  match lastDateBefore df s p with
  | none => s - validity_duration
  | some d => ratMax d (s - validity_duration)

/-- The frame `last_date_before_evaluation` after clip, merge onto all
patients and fillna (lines 51-59): one row per patient, indicator column
`NaN`. -/
def anchorRows (df : List FRow) (validity_duration s : ℚ) : List PRow :=
  (uniquePatients df).map fun p => ⟨anchorDate df validity_duration s p, none, p⟩

/-- The frame `df_evaluation_period` of rows inside the evaluation window
(line 62); rows with `NaT` dates fail both comparisons and are dropped. -/
def inWindowRows (df : List FRow) (s e : ℚ) : List PRow :=
  df.filterMap fun r =>
    match r.date with
    | none => none
    | some d => if s ≤ d ∧ d ≤ e then some ⟨d, r.flag, r.patient⟩ else none

/-- The frame `df_day_after_end_date`: one synthetic row per patient dated
one day after the evaluation end (lines 65-66), indicator column `NaN`. -/
def sentinelRows (df : List FRow) (e : ℚ) : List PRow :=
  (uniquePatients df).map fun p => ⟨e + 1, none, p⟩

/-- Embedding of `prepare_df_for_concordance_ratio` (lines 48-75): concat
the three frames, sort by (patient, date), drop exact duplicate rows. -/
def prepare_df_for_concordance_ratio (df : List FRow) (validity_duration s e : ℚ) : List PRow :=
  dedupFirst (List.insertionSort rowLE
    (inWindowRows df s e ++ anchorRows df validity_duration s ++ sentinelRows df e))

/-- Evaluation end date `evaluation_start_date + (evaluation_length - 1)`
days (line 106). -/
def evalEnd (s len : ℚ) : ℚ := s + (len - 1)

/-- Value of the indicator flag column of a row; a column absent from the
row reads as 0 (the embedding only applies it to frames that passed the
required-columns validation, where the column is present). -/
def flagOf (r : Row) (ind : String) : ℚ := (alookup ind r.flags).getD 0

/-- The filter and projection `df[df[indicator] == 1][[date_col, indicator,
patient_col]]` (line 109). -/
def filterIndicator (df : List Row) (ind : String) : List FRow :=
  df.filterMap fun r =>
    if flagOf r ind = 1 then some ⟨r.date, some (flagOf r ind), r.patient⟩ else none

/-- Date sequence of one patient in a prepared frame, in frame order (the
rows of one `groupby(patient_col)` group). -/
def patientDates (l : List PRow) (p : ℕ) : List ℚ :=
  (l.filter fun r => decide (r.patient = p)).map PRow.date

/-- Consecutive (prev_date, date) pairs produced by
`groupby(patient_col)[date_col].shift(1)` followed by dropping the first
row of the group (lines 115-118). -/
def consecPairs (l : List ℚ) : List (ℚ × ℚ) := l.zip l.tail

/-- Per-pair uncovered days `max(0, days_between_activities −
validity_duration)` (lines 121-127). -/
def uncoveredDays (l : List PRow) (validity_duration : ℚ) (p : ℕ) : List ℚ :=
  (consecPairs (patientDates l p)).map fun q => ratMax 0 (q.2 - q.1 - validity_duration)

/-- Per-patient total of uncovered days,
`groupby(patient_col)["days_not_concordant"].transform("sum")` (line 130). -/
def totalUncovered (l : List PRow) (validity_duration : ℚ) (p : ℕ) : ℚ :=
  (uncoveredDays l validity_duration p).sum

/-- Unique patients of a prepared frame in order of first appearance. -/
def uniquePatientsP (l : List PRow) : List ℕ :=
  dedupFirst (l.map PRow.patient)

/-- Score frame built from a prepared frame (lines 115-133): the frame
keeps, per patient, the first row surviving
`dropna(subset=["prev_date"])`; a patient group of size `k` keeps `k - 1`
rows, so a patient appears in the output exactly when their prepared group
has at least two rows, and their score column
`concordance_{indicator}` holds `(evaluation_length − total_uncovered) /
evaluation_length` (lines 130-133), constant across the group by
`transform("sum")`. -/
def scoreTable (prepared : List PRow) (len validity_duration : ℚ) : List (ℕ × ℚ) :=
  (uniquePatientsP prepared).filterMap fun p =>
    if 2 ≤ (prepared.filter fun r => decide (r.patient = p)).length then
      some (p, (len - totalUncovered prepared validity_duration p) / len)
    else none

/-- Embedding of `calc_ratio_of_concordant_period` (lines 78-135): filter
on the indicator, prepare the frame, and derive one (patient, score) pair
per patient. -/
def calc_ratio_of_concordant_period (df : List Row) (ind : String)
    (s len validity_duration : ℚ) : List (ℕ × ℚ) :=
  scoreTable (prepare_df_for_concordance_ratio (filterIndicator df ind)
    validity_duration s (evalEnd s len)) len validity_duration

/-- A row of the accumulated score table: patient identifier and the
`concordance_*` columns as an association list with `NaN` as `none`. -/
structure ScoreRow where
  patient : ℕ
  scores : List (String × Option ℚ)
deriving DecidableEq

/-- The fatal errors raised by `validate_inputs` (lines 305-348), in the
order the checks run; string formatting of the messages is elided but each
error carries the data the message names. -/
inductive CalcError where
  | emptyDataFrame : CalcError
  | nonpositiveEvaluationLength : CalcError
  | emptyIndicators : CalcError
  | missingColumns : List String → CalcError
  | missingValidityPeriods : List String → CalcError
deriving DecidableEq

instance {ε α : Type} [DecidableEq ε] [DecidableEq α] : DecidableEq (Except ε α) := fun x y =>
  match x, y with
  | .ok a, .ok b =>
    if h : a = b then isTrue (by rw [h]) else isFalse (by intro hc; cases hc; exact h rfl)
  | .error a, .error b =>
    if h : a = b then isTrue (by rw [h]) else isFalse (by intro hc; cases hc; exact h rfl)
  | .ok _, .error _ => isFalse (by intro hc; cases hc)
  | .error _, .ok _ => isFalse (by intro hc; cases hc)

/-- Lower-casing of the validity-period keys, `{key.lower(): value for key,
value in validity_periods.items()}` (line 252). -/
def lowerKeys (vps : List (String × ℚ)) : List (String × ℚ) :=
  vps.map fun kv => (lowerStr kv.1, kv.2)

/-- Python dict lookup on an association list built by successive
insertion: a later binding of the same key shadows an earlier one, hence
the lookup on the reversed list. -/
def dictGet (d : List (String × ℚ)) (k : String) : Option ℚ :=
  alookup k d.reverse

/-- Presence of a named indicator column (`col in df.columns`, line 341);
pandas columns are uniform across rows, so a column is present when every
row carries it. -/
def hasCol (df : List Row) (ind : String) : Bool :=
  df.all fun r => (alookup ind r.flags).isSome

/-- Row-wise mean with pandas `skipna` semantics (`mean(axis=1)`, line
206): average of the present values, `NaN` when none are present. -/
def rowMean (vals : List (Option ℚ)) : Option ℚ :=
  if (vals.filterMap id).length = 0 then none
  else some ((vals.filterMap id).sum / (vals.filterMap id).length)

/-- Outer merge of the running score table with one indicator score frame
on the patient key (`pd.merge(..., how="outer")`, line 201).  Both key
columns are duplicate-free, so matching is a lookup; unmatched right rows
are appended with `NaN` in the previously accumulated score columns. -/
def outerMerge (master : List ScoreRow) (priorCols : List String) (col : String)
    (ns : List (ℕ × ℚ)) : List ScoreRow :=
  (master.map fun m => ⟨m.patient, m.scores ++ [(col, alookup m.patient ns)]⟩) ++
    ((ns.filter fun pv => !(master.any fun m => m.patient == pv.1)).map fun pv =>
      ⟨pv.1, (priorCols.map fun c => (c, (none : Option ℚ))) ++ [(col, some pv.2)]⟩)

/-- Addition of the `concordance_total` column (lines 204-206): per row,
the mean of the columns whose name starts with `concordance`. -/
def addTotal (t : List ScoreRow) : List ScoreRow :=
  t.map fun r =>
    ⟨r.patient, r.scores ++
      [("concordance_total",
        rowMean ((r.scores.filter fun kv => startsWithConcordance kv.1).map Prod.snd))]⟩

/-- Unique patients of the full input frame (`df[patient_col].unique()`,
line 187). -/
def uniquePatientsRows (df : List Row) : List ℕ :=
  dedupFirst (df.map Row.patient)

/-- Embedding of `calc_concordance_with_ratio` (lines 138-208) over an
in-memory validity-period mapping.  The `validate_inputs` checks are run in
source order (empty frame, non-positive evaluation length, empty indicator
list, missing columns, indicators without a validity period); the date and
start-date parsing steps are identities here because the embedding is
already typed, and the non-fatal missing-date warning (lines 190-195) has
no effect on the returned table. -/
def calc_concordance_with_ratio (df : List Row) (s len : ℚ) (indicators : List String)
    (validity_periods : List (String × ℚ)) : Except CalcError (List ScoreRow) :=
  let vpl := lowerKeys validity_periods
  if df = [] then .error .emptyDataFrame
  else if len ≤ 0 then .error .nonpositiveEvaluationLength
  else if indicators = [] then .error .emptyIndicators
  else
    let missingCols := indicators.filter fun ind => !hasCol df ind
    if missingCols ≠ [] then .error (.missingColumns missingCols)
    else
      let missingInds := indicators.filter fun ind => decide (dictGet vpl (lowerStr ind) = none)
      if missingInds ≠ [] then .error (.missingValidityPeriods missingInds)
      else
        let master : List ScoreRow := (uniquePatientsRows df).map fun p => ⟨p, []⟩
        let step := fun (st : List ScoreRow × List String) (ind : String) =>
          let col := "concordance_" ++ ind
          (outerMerge st.1 st.2 col
            (calc_ratio_of_concordant_period df ind s len
              ((dictGet vpl (lowerStr ind)).getD 0)),
           st.2 ++ [col])
        let table := (indicators.foldl step (master, [])).1
        .ok (if 1 < indicators.length then addTotal table else table)

/-- Anchor date as the specification words it: the dummy date if the
patient has no event before the start or their latest such event is
earlier than the dummy date, otherwise that latest event date. -/
def specAnchorDate (df : List FRow) (validity_duration s : ℚ) (p : ℕ) : ℚ :=
  match lastDateBefore df s p with
  | none => s - validity_duration
  | some d => if d < s - validity_duration then s - validity_duration else d

/-- Row mean as the specification words it: the arithmetic mean of the
present (non-missing) concordance-column values of the row, missing values
excluded rather than counted as 0. -/
def specMeanPresent (scores : List (String × Option ℚ)) : Option ℚ :=
  if (scores.filter fun kv => startsWithConcordance kv.1).filterMap Prod.snd = [] then none
  else some (((scores.filter fun kv => startsWithConcordance kv.1).filterMap Prod.snd).sum /
    ((scores.filter fun kv => startsWithConcordance kv.1).filterMap Prod.snd).length)

theorem ratMax_eq_max (a b : ℚ) : ratMax a b = max a b := by
  rw [ratMax]
  rcases le_or_lt a b with h | h
  · rw [if_pos h, max_eq_right h]
  · rw [if_neg (not_le.mpr h), max_eq_left h.le]

theorem ratMax_cases (a b : ℚ) : ratMax a b = a ∨ ratMax a b = b := by
  rw [ratMax]
  split
  · exact Or.inr rfl
  · exact Or.inl rfl

theorem le_ratMax_right (a b : ℚ) : b ≤ ratMax a b := by
  rw [ratMax_eq_max]; exact le_max_right a b

theorem dedupFirst_sublist {α : Type} [DecidableEq α] :
    ∀ l : List α, List.Sublist (dedupFirst l) l
  | [] => List.Sublist.refl []
  | x :: xs => by
    rw [dedupFirst]
    exact List.Sublist.cons₂ x
      ((List.filter_sublist (dedupFirst xs)).trans (dedupFirst_sublist xs))

theorem mem_dedupFirst {α : Type} [DecidableEq α] {a : α} {l : List α} :
    a ∈ dedupFirst l ↔ a ∈ l := by
  induction l with
  | nil => simp [dedupFirst]
  | cons x xs ih =>
    rw [dedupFirst]
    simp only [List.mem_cons, List.mem_filter, decide_eq_true_eq]
    constructor
    · rintro (h | ⟨h, _⟩)
      · exact Or.inl h
      · exact Or.inr (ih.mp h)
    · rintro (h | h)
      · exact Or.inl h
      · by_cases hax : a = x
        · exact Or.inl hax
        · exact Or.inr ⟨ih.mpr h, hax⟩

theorem nodup_dedupFirst {α : Type} [DecidableEq α] {l : List α} : (dedupFirst l).Nodup := by
  induction l with
  | nil => exact List.nodup_nil
  | cons x xs ih =>
    rw [dedupFirst]
    refine List.Nodup.cons ?_ (List.Nodup.filter _ ih)
    intro hx
    have hne := (List.mem_filter.mp hx).2
    simp at hne

theorem filter_comm {α : Type} (p q : α → Bool) (l : List α) :
    (l.filter q).filter p = (l.filter p).filter q := by
  induction l with
  | nil => rfl
  | cons x xs ih => by_cases hp : p x <;> by_cases hq : q x <;> simp [List.filter_cons, hp, hq, ih]

theorem filter_dedupFirst {α : Type} [DecidableEq α] (q : α → Bool) :
    ∀ l : List α, (dedupFirst l).filter q = dedupFirst (l.filter q)
  | [] => rfl
  | x :: xs => by
    rw [dedupFirst, List.filter_cons]
    by_cases hq : q x
    · rw [if_pos hq, List.filter_cons, if_pos hq, dedupFirst,
        filter_comm, filter_dedupFirst q xs]
    · rw [if_neg hq, List.filter_cons, if_neg hq,
        filter_comm, filter_dedupFirst q xs]
      refine List.filter_eq_self.mpr ?_
      intro a ha
      have haq : q a = true := (List.mem_filter.mp (mem_dedupFirst.mp ha)).2
      simp only [decide_eq_true_eq]
      intro hax
      rw [hax] at haq
      exact hq haq

theorem listMax_mem : ∀ {l : List ℚ} {m : ℚ}, listMax l = some m → m ∈ l := by
  intro l
  induction l with
  | nil => intro m h; cases h
  | cons x xs ih =>
    intro m h
    rw [listMax] at h
    rcases hx : listMax xs with _ | mx
    · rw [hx] at h
      cases h
      exact List.mem_cons_self x xs
    · rw [hx] at h
      cases h
      rcases ratMax_cases x mx with hc | hc
      · rw [hc]; exact List.mem_cons_self x xs
      · rw [hc]; exact List.mem_cons_of_mem x (ih hx)

theorem filter_orderedInsert {α : Type} (r : α → α → Prop) [DecidableRel r] [IsTrans α r]
    (q : α → Bool) (a : α) :
    ∀ l : List α, l.Sorted r → (l.orderedInsert r a).filter q =
      if q a then (l.filter q).orderedInsert r a else l.filter q
  | [], _ => by
    by_cases hqa : q a <;>
      simp [List.orderedInsert, List.filter_cons, hqa]
  | b :: bs, hsort => by
    by_cases hab : r a b
    · rw [List.orderedInsert_of_le r bs hab, List.filter_cons]
      by_cases hqa : q a
      · rw [if_pos hqa, if_pos hqa]
        have hall : ∀ c ∈ (b :: bs).filter q, r a c := by
          intro c hc
          rcases List.mem_cons.mp (List.mem_of_mem_filter hc) with hcb | hcbs
          · exact hcb ▸ hab
          · exact Trans.trans hab (List.rel_of_sorted_cons hsort c hcbs)
        rcases hfe : (b :: bs).filter q with _ | ⟨c, cs⟩
        · simp [List.orderedInsert]
        · rw [List.orderedInsert_of_le r cs (hall c (hfe ▸ List.mem_cons_self c cs))]
      · rw [if_neg hqa, if_neg hqa]
    · rw [List.orderedInsert, if_neg hab, List.filter_cons]
      by_cases hqb : q b
      · rw [if_pos hqb, List.filter_cons, if_pos hqb,
          filter_orderedInsert r q a bs hsort.of_cons]
        by_cases hqa : q a
        · rw [if_pos hqa, if_pos hqa, List.orderedInsert, if_neg hab]
        · rw [if_neg hqa, if_neg hqa]
      · rw [if_neg hqb, List.filter_cons, if_neg hqb,
          filter_orderedInsert r q a bs hsort.of_cons]

theorem filter_insertionSort {α : Type} (r : α → α → Prop) [DecidableRel r]
    [IsTotal α r] [IsTrans α r] (q : α → Bool) :
    ∀ l : List α, (List.insertionSort r l).filter q = List.insertionSort r (l.filter q)
  | [] => rfl
  | x :: xs => by
    rw [List.insertionSort,
      filter_orderedInsert r q x (List.insertionSort r xs) (List.sorted_insertionSort r xs),
      List.filter_cons]
    by_cases hqx : q x
    · rw [if_pos hqx, if_pos hqx, List.insertionSort, filter_insertionSort r q xs]
    · rw [if_neg hqx, if_neg hqx, filter_insertionSort r q xs]

theorem mem_prepare {df : List FRow} {vd s e : ℚ} {r : PRow} :
    r ∈ prepare_df_for_concordance_ratio df vd s e ↔
      r ∈ inWindowRows df s e ∨ r ∈ anchorRows df vd s ∨ r ∈ sentinelRows df e := by
  rw [prepare_df_for_concordance_ratio, mem_dedupFirst,
    (List.perm_insertionSort rowLE _).mem_iff]
  simp [or_assoc]

theorem mem_inWindowRows {df : List FRow} {s e : ℚ} {r : PRow} (h : r ∈ inWindowRows df s e) :
    s ≤ r.date ∧ r.date ≤ e ∧
      ∃ f ∈ df, f.date = some r.date ∧ f.flag = r.flag ∧ f.patient = r.patient := by
  rw [inWindowRows, List.mem_filterMap] at h
  obtain ⟨f, hf, hmk⟩ := h
  split at hmk
  · cases hmk
  · rename_i d hd
    split at hmk
    · rename_i hin
      cases hmk
      exact ⟨hin.1, hin.2, f, hf, hd, rfl, rfl⟩
    · cases hmk

theorem mem_anchorRows {df : List FRow} {vd s : ℚ} {r : PRow} (h : r ∈ anchorRows df vd s) :
    r.patient ∈ uniquePatients df ∧ r = ⟨anchorDate df vd s r.patient, none, r.patient⟩ := by
  rw [anchorRows, List.mem_map] at h
  obtain ⟨p, hp, hr⟩ := h
  cases hr
  exact ⟨hp, rfl⟩

theorem mem_sentinelRows {df : List FRow} {e : ℚ} {r : PRow} (h : r ∈ sentinelRows df e) :
    r.patient ∈ uniquePatients df ∧ r = ⟨e + 1, none, r.patient⟩ := by
  rw [sentinelRows, List.mem_map] at h
  obtain ⟨p, hp, hr⟩ := h
  cases hr
  exact ⟨hp, rfl⟩

theorem lastDateBefore_lt {df : List FRow} {s d : ℚ} {p : ℕ}
    (h : lastDateBefore df s p = some d) : d < s := by
  have hmem := listMax_mem h
  rw [List.mem_filterMap] at hmem
  obtain ⟨f, _, hmk⟩ := hmem
  rw [beforeDate] at hmk
  split at hmk
  · cases hmk
  · rename_i d0 hd
    split at hmk
    · rename_i hc
      cases hmk
      exact hc.2
    · cases hmk

theorem anchorDate_lt_start {df : List FRow} {vd s : ℚ} (p : ℕ) (hvd : 0 < vd) :
    anchorDate df vd s p < s := by
  rw [anchorDate]
  rcases hlb : lastDateBefore df s p with _ | d
  · show s - vd < s
    linarith
  · show ratMax d (s - vd) < s
    have hd : d < s := lastDateBefore_lt hlb
    rcases ratMax_cases d (s - vd) with hc | hc <;> rw [hc] <;> linarith

theorem filter_patient_map (g : ℕ → ℚ) :
    ∀ (l : List ℕ), l.Nodup → ∀ p ∈ l,
      ((l.map fun q => (⟨g q, none, q⟩ : PRow)).filter fun r => decide (r.patient = p)) =
        [⟨g p, none, p⟩]
  | [], _, p, hp => absurd hp (List.not_mem_nil p)
  | x :: xs, hnd, p, hp => by
    rw [List.map_cons, List.filter_cons]
    by_cases hxp : x = p
    · cases hxp
      rw [if_pos (by simp)]
      have hrest : (xs.map fun q => (⟨g q, none, q⟩ : PRow)).filter
          (fun r => decide (r.patient = x)) = [] := by
        rw [List.filter_eq_nil_iff]
        intro a ha
        rw [List.mem_map] at ha
        obtain ⟨y, hy, hya⟩ := ha
        cases hya
        simp only [decide_eq_true_eq]
        intro hyx
        exact (List.nodup_cons.mp hnd).1 (hyx ▸ hy)
      rw [hrest]
    · rw [if_neg (by simp [hxp])]
      exact filter_patient_map g xs (List.nodup_cons.mp hnd).2 p
        ((List.mem_cons.mp hp).resolve_left fun hpx => hxp hpx.symm)

theorem uniquePatients_nodup {df : List FRow} : (uniquePatients df).Nodup :=
  nodup_dedupFirst

theorem mem_scoreTable {prepared : List PRow} {len vd : ℚ} {p : ℕ} {sc : ℚ}
    (h : (p, sc) ∈ scoreTable prepared len vd) :
    sc = (len - totalUncovered prepared vd p) / len := by
  rw [scoreTable, List.mem_filterMap] at h
  obtain ⟨q, hq, hmk⟩ := h
  split at hmk
  · rw [Option.some.injEq, Prod.mk.injEq] at hmk
    obtain ⟨rfl, rfl⟩ := hmk
    rfl
  · cases hmk

/-- C1: for evaluation_start_date 2021-01-01, evaluation_length 10,
validity_duration 5 and one patient flagged on 2020-12-29, 2021-01-03 and
2021-01-09, the prepared frame holds exactly the dates [2020-12-29,
2021-01-03, 2021-01-09, 2021-01-11] for that patient (prior date kept
unclipped plus the sentinel), the total of uncovered days is 1, and the
returned concordance score is (10 - 1)/10 = 0.9.  Dates are encoded as day
offsets from 2021-01-01, so 2020-12-29 is -3, 2021-01-03 is 2, 2021-01-09
is 8 and 2021-01-11 is 10. -/
theorem c1_worked_scenario :
    patientDates (prepare_df_for_concordance_ratio
      (filterIndicator [⟨1, some (-3), [("I", 1)]⟩, ⟨1, some 2, [("I", 1)]⟩,
        ⟨1, some 8, [("I", 1)]⟩] "I") 5 0 (evalEnd 0 10)) 1 = [-3, 2, 8, 10] ∧
    totalUncovered (prepare_df_for_concordance_ratio
      (filterIndicator [⟨1, some (-3), [("I", 1)]⟩, ⟨1, some 2, [("I", 1)]⟩,
        ⟨1, some 8, [("I", 1)]⟩] "I") 5 0 (evalEnd 0 10)) 5 1 = 1 ∧
    calc_ratio_of_concordant_period
      [⟨1, some (-3), [("I", 1)]⟩, ⟨1, some 2, [("I", 1)]⟩, ⟨1, some 8, [("I", 1)]⟩]
      "I" 0 10 5 = [(1, 9 / 10)] := by
  decide!

/-- C2: for every well-typed input, every per-pair uncovered-days value
and every per-patient total of uncovered days is nonnegative, hence every
returned concordance ratio is at most 1; the ratio is not clamped from
below and is negative exactly when the total uncovered days exceed the
evaluation length. -/
theorem c2_ratio_bounds (df : List Row) (ind : String) (s len vd : ℚ) (p : ℕ) (sc : ℚ)
    (hlen : 0 < len)
    (hmem : (p, sc) ∈ calc_ratio_of_concordant_period df ind s len vd) :
    (∀ u ∈ uncoveredDays (prepare_df_for_concordance_ratio (filterIndicator df ind)
        vd s (evalEnd s len)) vd p, 0 ≤ u) ∧
    0 ≤ totalUncovered (prepare_df_for_concordance_ratio (filterIndicator df ind)
        vd s (evalEnd s len)) vd p ∧
    sc ≤ 1 ∧
    (sc < 0 ↔ len < totalUncovered (prepare_df_for_concordance_ratio (filterIndicator df ind)
        vd s (evalEnd s len)) vd p) := by
  have hu : ∀ u ∈ uncoveredDays (prepare_df_for_concordance_ratio (filterIndicator df ind)
      vd s (evalEnd s len)) vd p, 0 ≤ u := by
    intro u hu
    rw [uncoveredDays, List.mem_map] at hu
    obtain ⟨pr, _, rfl⟩ := hu
    rw [ratMax_eq_max]
    exact le_max_left 0 _
  have hT : 0 ≤ totalUncovered (prepare_df_for_concordance_ratio (filterIndicator df ind)
      vd s (evalEnd s len)) vd p := List.sum_nonneg hu
  rw [calc_ratio_of_concordant_period] at hmem
  have hsc := mem_scoreTable hmem
  refine ⟨hu, hT, ?_, ?_⟩
  · rw [hsc, div_le_one hlen]
    linarith
  · rw [hsc, div_lt_iff₀ hlen, zero_mul, sub_neg]

/-- Witness for C2 at the C1 scenario: the hypotheses hold there and the
returned score 0.9 satisfies the bound. -/
theorem c2_witness :
    ((9 : ℚ) / 10 ≤ 1) ∧
    (0 : ℚ) ≤ totalUncovered (prepare_df_for_concordance_ratio
      (filterIndicator [⟨1, some (-3), [("I", 1)]⟩, ⟨1, some 2, [("I", 1)]⟩,
        ⟨1, some 8, [("I", 1)]⟩] "I") 5 0 (evalEnd 0 10)) 5 1 := by
  have h := c2_ratio_bounds
    [⟨1, some (-3), [("I", 1)]⟩, ⟨1, some 2, [("I", 1)]⟩, ⟨1, some 8, [("I", 1)]⟩]
    "I" 0 10 5 1 (9 / 10) (by norm_num) (by decide!)
  exact ⟨h.2.2.1, h.2.1⟩

/-- C7: for every patient of the score frame whose prepared timeline has
every consecutive gap at most validity_duration days, the total of
uncovered days is 0 and the returned ratio is exactly 1. -/
theorem c7_perfect_coverage (df : List Row) (ind : String) (s len vd : ℚ) (p : ℕ) (sc : ℚ)
    (hlen : 0 < len)
    (hmem : (p, sc) ∈ calc_ratio_of_concordant_period df ind s len vd)
    (hgap : ∀ pr ∈ consecPairs (patientDates (prepare_df_for_concordance_ratio
      (filterIndicator df ind) vd s (evalEnd s len)) p), pr.2 - pr.1 ≤ vd) :
    totalUncovered (prepare_df_for_concordance_ratio (filterIndicator df ind)
      vd s (evalEnd s len)) vd p = 0 ∧ sc = 1 := by
  have hT : totalUncovered (prepare_df_for_concordance_ratio (filterIndicator df ind)
      vd s (evalEnd s len)) vd p = 0 := by
    rw [totalUncovered]
    refine List.sum_eq_zero ?_
    intro u hu
    rw [uncoveredDays, List.mem_map] at hu
    obtain ⟨pr, hpr, rfl⟩ := hu
    rw [ratMax_eq_max]
    exact max_eq_left (by have := hgap pr hpr; linarith)
  rw [calc_ratio_of_concordant_period] at hmem
  have hsc := mem_scoreTable hmem
  exact ⟨hT, by rw [hsc, hT, sub_zero, div_self (ne_of_gt hlen)]⟩

theorem listMax_cons_none {x : ℚ} {xs : List ℚ} (h : listMax xs = none) :
    listMax (x :: xs) = some x := by
  rw [listMax, h]

theorem listMax_cons_some {x m : ℚ} {xs : List ℚ} (h : listMax xs = some m) :
    listMax (x :: xs) = some (ratMax x m) := by
  rw [listMax, h]

theorem anchorDate_of_none {df : List FRow} {s vd : ℚ} {p : ℕ}
    (h : lastDateBefore df s p = none) : anchorDate df vd s p = s - vd := by
  rw [anchorDate, h]

theorem anchorDate_of_some {df : List FRow} {s vd d : ℚ} {p : ℕ}
    (h : lastDateBefore df s p = some d) : anchorDate df vd s p = ratMax d (s - vd) := by
  rw [anchorDate, h]

theorem lastDateBefore_prior_cons (G : List FRow) (s d : ℚ) (q x : ℕ) (fg : Option ℚ)
    (hd : 0 < d) :
    lastDateBefore (⟨some (s - d), fg, q⟩ :: G) s x =
      if q = x then
        some (match lastDateBefore G s x with
          | none => s - d
          | some m => ratMax (s - d) m)
      else lastDateBefore G s x := by
  by_cases hqx : q = x
  · have hb : beforeDate s x ⟨some (s - d), fg, q⟩ = some (s - d) := by
      show (if q = x ∧ s - d < s then some (s - d) else none) = some (s - d)
      rw [if_pos ⟨hqx, by linarith⟩]
    rw [if_pos hqx, lastDateBefore, List.filterMap_cons_some hb]
    rcases hL : listMax (G.filterMap (beforeDate s x)) with _ | m
    · rw [listMax_cons_none hL]
      have hG : lastDateBefore G s x = none := hL
      rw [hG]
    · rw [listMax_cons_some hL]
      have hG : lastDateBefore G s x = some m := hL
      rw [hG]
  · have hb : beforeDate s x ⟨some (s - d), fg, q⟩ = none := by
      show (if q = x ∧ s - d < s then some (s - d) else none) = none
      rw [if_neg]
      rintro ⟨h1, _⟩
      exact hqx h1
    rw [if_neg hqx, lastDateBefore, List.filterMap_cons_none hb]
    rfl

theorem anchorDate_prior_depth (G : List FRow) (vd s d1 d2 : ℚ) (q x : ℕ) (fg : Option ℚ)
    (hvd : 0 ≤ vd) (h1 : vd < d1) (h2 : vd < d2) :
    anchorDate (⟨some (s - d1), fg, q⟩ :: G) vd s x =
      anchorDate (⟨some (s - d2), fg, q⟩ :: G) vd s x := by
  have hd1 : (0 : ℚ) < d1 := lt_of_le_of_lt hvd h1
  have hd2 : (0 : ℚ) < d2 := lt_of_le_of_lt hvd h2
  by_cases hqx : q = x
  · rcases hG : lastDateBefore G s x with _ | m
    · have e1 : lastDateBefore (⟨some (s - d1), fg, q⟩ :: G) s x = some (s - d1) := by
        rw [lastDateBefore_prior_cons G s d1 q x fg hd1, if_pos hqx, hG]
      have e2 : lastDateBefore (⟨some (s - d2), fg, q⟩ :: G) s x = some (s - d2) := by
        rw [lastDateBefore_prior_cons G s d2 q x fg hd2, if_pos hqx, hG]
      rw [anchorDate_of_some e1, anchorDate_of_some e2, ratMax, ratMax,
        if_pos (by linarith : s - d1 ≤ s - vd), if_pos (by linarith : s - d2 ≤ s - vd)]
    · have e1 : lastDateBefore (⟨some (s - d1), fg, q⟩ :: G) s x = some (ratMax (s - d1) m) := by
        rw [lastDateBefore_prior_cons G s d1 q x fg hd1, if_pos hqx, hG]
      have e2 : lastDateBefore (⟨some (s - d2), fg, q⟩ :: G) s x = some (ratMax (s - d2) m) := by
        rw [lastDateBefore_prior_cons G s d2 q x fg hd2, if_pos hqx, hG]
      rw [anchorDate_of_some e1, anchorDate_of_some e2, ratMax_eq_max, ratMax_eq_max,
        ratMax_eq_max, ratMax_eq_max, max_assoc, max_assoc,
        max_eq_right (le_trans (by linarith : s - d1 ≤ s - vd) (le_max_right m (s - vd))),
        max_eq_right (le_trans (by linarith : s - d2 ≤ s - vd) (le_max_right m (s - vd)))]
  · have e1 : lastDateBefore (⟨some (s - d1), fg, q⟩ :: G) s x = lastDateBefore G s x := by
      rw [lastDateBefore_prior_cons G s d1 q x fg hd1, if_neg hqx]
    have e2 : lastDateBefore (⟨some (s - d2), fg, q⟩ :: G) s x = lastDateBefore G s x := by
      rw [lastDateBefore_prior_cons G s d2 q x fg hd2, if_neg hqx]
    rw [anchorDate, anchorDate, e1, e2]

theorem inWindowRows_cons_prior (G : List FRow) (s e d : ℚ) (q : ℕ) (fg : Option ℚ)
    (hd : 0 < d) :
    inWindowRows (⟨some (s - d), fg, q⟩ :: G) s e = inWindowRows G s e := by
  show List.filterMap _ (⟨some (s - d), fg, q⟩ :: G) = List.filterMap _ G
  apply List.filterMap_cons_none
  show (if s ≤ s - d ∧ s - d ≤ e then some (⟨s - d, fg, q⟩ : PRow) else none) = none
  rw [if_neg]
  rintro ⟨hs, _⟩
  linarith

theorem prepare_prior_depth (G : List FRow) (vd s e d1 d2 : ℚ) (q : ℕ) (fg : Option ℚ)
    (hvd : 0 ≤ vd) (h1 : vd < d1) (h2 : vd < d2) :
    prepare_df_for_concordance_ratio (⟨some (s - d1), fg, q⟩ :: G) vd s e =
      prepare_df_for_concordance_ratio (⟨some (s - d2), fg, q⟩ :: G) vd s e := by
  have hd1 : (0 : ℚ) < d1 := lt_of_le_of_lt hvd h1
  have hd2 : (0 : ℚ) < d2 := lt_of_le_of_lt hvd h2
  have hup : uniquePatients (⟨some (s - d1), fg, q⟩ :: G) =
      uniquePatients (⟨some (s - d2), fg, q⟩ :: G) := rfl
  have hanc : anchorRows (⟨some (s - d1), fg, q⟩ :: G) vd s =
      anchorRows (⟨some (s - d2), fg, q⟩ :: G) vd s := by
    rw [anchorRows, anchorRows, hup]
    exact List.map_congr_left fun x _ =>
      congrArg (fun dd => (⟨dd, none, x⟩ : PRow))
        (anchorDate_prior_depth G vd s d1 d2 q x fg hvd h1 h2)
  have hsen : sentinelRows (⟨some (s - d1), fg, q⟩ :: G) e =
      sentinelRows (⟨some (s - d2), fg, q⟩ :: G) e := by
    rw [sentinelRows, sentinelRows, hup]
  rw [prepare_df_for_concordance_ratio, prepare_df_for_concordance_ratio,
    inWindowRows_cons_prior G s e d1 q fg hd1, inWindowRows_cons_prior G s e d2 q fg hd2,
    hanc, hsen]

/-- C3: the single retained date before the evaluation start (the anchor)
equals the dummy date `evaluation_start_date - validity_duration` when the
patient has no event before the start or their latest such event is
earlier than the dummy date, and equals that latest event date otherwise;
consequently, moving a prior-activity row anywhere strictly below the
dummy date (e.g. 100 versus 1000 days before start) leaves the whole score
frame unchanged. -/
theorem c3_anchor_clipping (df : List FRow) (vd s : ℚ) (p : ℕ) (R : List Row)
    (fl : List (String × ℚ)) (ind : String) (d1 d2 len : ℚ) (q : ℕ)
    (hp : p ∈ uniquePatients df) (hvd : 0 ≤ vd) (h1 : vd < d1) (h2 : vd < d2) :
    anchorDate df vd s p = specAnchorDate df vd s p ∧
    calc_ratio_of_concordant_period (⟨q, some (s - d1), fl⟩ :: R) ind s len vd =
      calc_ratio_of_concordant_period (⟨q, some (s - d2), fl⟩ :: R) ind s len vd := by
  constructor
  · rw [anchorDate, specAnchorDate]
    rcases lastDateBefore df s p with _ | d
    · rfl
    · show ratMax d (s - vd) = if d < s - vd then s - vd else d
      rw [ratMax]
      rcases le_or_lt d (s - vd) with h | h
      · rw [if_pos h]
        by_cases hlt : d < s - vd
        · rw [if_pos hlt]
        · rw [if_neg hlt]
          exact le_antisymm (not_lt.mp hlt) h
      · rw [if_neg (not_le.mpr h), if_neg (not_lt.mpr h.le)]
  · rw [calc_ratio_of_concordant_period, calc_ratio_of_concordant_period]
    by_cases hfl : flagOf ⟨q, some (s - d1), fl⟩ ind = 1
    · have hfl2 : flagOf ⟨q, some (s - d2), fl⟩ ind = 1 := hfl
      have hf1 : filterIndicator (⟨q, some (s - d1), fl⟩ :: R) ind =
          ⟨some (s - d1), some (flagOf ⟨q, some (s - d1), fl⟩ ind), q⟩ :: filterIndicator R ind := by
        rw [filterIndicator, List.filterMap_cons_some, ← filterIndicator]
        show (if flagOf ⟨q, some (s - d1), fl⟩ ind = 1 then
          some (⟨some (s - d1), some (flagOf ⟨q, some (s - d1), fl⟩ ind), q⟩ : FRow)
          else none) = _
        rw [if_pos hfl]
      have hf2 : filterIndicator (⟨q, some (s - d2), fl⟩ :: R) ind =
          ⟨some (s - d2), some (flagOf ⟨q, some (s - d2), fl⟩ ind), q⟩ :: filterIndicator R ind := by
        rw [filterIndicator, List.filterMap_cons_some, ← filterIndicator]
        show (if flagOf ⟨q, some (s - d2), fl⟩ ind = 1 then
          some (⟨some (s - d2), some (flagOf ⟨q, some (s - d2), fl⟩ ind), q⟩ : FRow)
          else none) = _
        rw [if_pos hfl2]
      rw [hf1, hf2]
      exact congrArg (fun l => scoreTable l len vd)
        (prepare_prior_depth (filterIndicator R ind) vd s (evalEnd s len) d1 d2 q
          (some (flagOf ⟨q, some (s - d1), fl⟩ ind)) hvd h1 h2)
    · have hfl2 : ¬ flagOf ⟨q, some (s - d2), fl⟩ ind = 1 := hfl
      have hf1 : filterIndicator (⟨q, some (s - d1), fl⟩ :: R) ind = filterIndicator R ind := by
        rw [filterIndicator, List.filterMap_cons_none, ← filterIndicator]
        show (if flagOf ⟨q, some (s - d1), fl⟩ ind = 1 then
          some (⟨some (s - d1), some (flagOf ⟨q, some (s - d1), fl⟩ ind), q⟩ : FRow)
          else none) = none
        rw [if_neg hfl]
      have hf2 : filterIndicator (⟨q, some (s - d2), fl⟩ :: R) ind = filterIndicator R ind := by
        rw [filterIndicator, List.filterMap_cons_none, ← filterIndicator]
        show (if flagOf ⟨q, some (s - d2), fl⟩ ind = 1 then
          some (⟨some (s - d2), some (flagOf ⟨q, some (s - d2), fl⟩ ind), q⟩ : FRow)
          else none) = none
        rw [if_neg hfl2]
      rw [hf1, hf2]

/-- Witness for C3: last prior activity 100 versus 1000 days before start
with validity_duration 5 gives the clipped anchor and identical score
frames. -/
theorem c3_witness :
    anchorDate [⟨some (-100), some 1, 7⟩, ⟨some 3, some 1, 7⟩] 5 0 7 =
      specAnchorDate [⟨some (-100), some 1, 7⟩, ⟨some 3, some 1, 7⟩] 5 0 7 ∧
    calc_ratio_of_concordant_period
      (⟨7, some ((0 : ℚ) - 100), [("I", 1)]⟩ :: [⟨7, some 3, [("I", 1)]⟩]) "I" 0 10 5 =
      calc_ratio_of_concordant_period
      (⟨7, some ((0 : ℚ) - 1000), [("I", 1)]⟩ :: [⟨7, some 3, [("I", 1)]⟩]) "I" 0 10 5 :=
  c3_anchor_clipping [⟨some (-100), some 1, 7⟩, ⟨some 3, some 1, 7⟩] 5 0 7
    [⟨7, some 3, [("I", 1)]⟩] [("I", 1)] "I" 100 1000 10 7
    (by decide!) (by norm_num) (by norm_num) (by norm_num)

theorem beforeDate_some {s : ℚ} {p : ℕ} {f : FRow} {d : ℚ} (hd : f.date = some d) :
    beforeDate s p f = if f.patient = p ∧ d < s then some d else none := by
  rw [beforeDate, hd]

theorem dedupFirst_cons_const {l : List ℕ} {p : ℕ} (hall : ∀ a ∈ l, a = p) :
    dedupFirst (p :: l) = [p] := by
  rw [dedupFirst]
  have hfil : (dedupFirst l).filter (fun y => decide (y ≠ p)) = [] := by
    rw [List.filter_eq_nil_iff]
    intro a ha
    have hap := hall a (mem_dedupFirst.mp ha)
    simp [hap]
  rw [hfil]

theorem dedupFirst_const {l : List ℕ} {p : ℕ} (hne : l ≠ []) (hall : ∀ a ∈ l, a = p) :
    dedupFirst l = [p] := by
  rcases l with _ | ⟨x, xs⟩
  · exact absurd rfl hne
  · have hx : x = p := hall x (List.mem_cons_self x xs)
    subst hx
    exact dedupFirst_cons_const fun a ha => hall a (List.mem_cons_of_mem x ha)

/-- C8 (amended): a patient with zero activity before the evaluation start
and a patient whose only activity before the start sits exactly at the
dummy date, with identical in-window activities and parameters, get
literally equal prepared frames and equal score frames — provided the
patient has at least one flagged activity (the two inputs are modelled as
the same patient identifier with and without the dummy-date row). -/
theorem c8_dummy_date_equivalence (R : List Row) (fl : List (String × ℚ)) (ind : String)
    (s len vd : ℚ) (p : ℕ)
    (hvd : 0 < vd)
    (hpat : ∀ r ∈ R, r.patient = p)
    (hdates : ∀ r ∈ R, flagOf r ind = 1 →
      ∃ d, r.date = some d ∧ s ≤ d ∧ d ≤ evalEnd s len)
    (hfl : (alookup ind fl).getD 0 = 1)
    (hex : ∃ r ∈ R, flagOf r ind = 1) :
    prepare_df_for_concordance_ratio (filterIndicator (⟨p, some (s - vd), fl⟩ :: R) ind)
        vd s (evalEnd s len) =
      prepare_df_for_concordance_ratio (filterIndicator R ind) vd s (evalEnd s len) ∧
    calc_ratio_of_concordant_period (⟨p, some (s - vd), fl⟩ :: R) ind s len vd =
      calc_ratio_of_concordant_period R ind s len vd := by
  have hGpat : ∀ f ∈ filterIndicator R ind, f.patient = p := by
    intro f hf
    rw [filterIndicator, List.mem_filterMap] at hf
    obtain ⟨r, hr, hmk⟩ := hf
    split at hmk
    · cases hmk
      exact hpat r hr
    · cases hmk
  have hGdate : ∀ f ∈ filterIndicator R ind,
      ∃ d, f.date = some d ∧ s ≤ d ∧ d ≤ evalEnd s len := by
    intro f hf
    rw [filterIndicator, List.mem_filterMap] at hf
    obtain ⟨r, hr, hmk⟩ := hf
    split at hmk
    · rename_i hflag1
      cases hmk
      exact hdates r hr hflag1
    · cases hmk
  have hGne : filterIndicator R ind ≠ [] := by
    obtain ⟨r, hr, hfr⟩ := hex
    intro hnil
    have hmem : (⟨r.date, some (flagOf r ind), r.patient⟩ : FRow) ∈ filterIndicator R ind := by
      rw [filterIndicator, List.mem_filterMap]
      exact ⟨r, hr, by rw [if_pos hfr]⟩
    rw [hnil] at hmem
    exact List.not_mem_nil _ hmem
  have hallmap : ∀ a ∈ (filterIndicator R ind).map FRow.patient, a = p := by
    intro a ha
    rw [List.mem_map] at ha
    obtain ⟨f, hf, rfl⟩ := ha
    exact hGpat f hf
  have hcons : filterIndicator (⟨p, some (s - vd), fl⟩ :: R) ind =
      ⟨some (s - vd), some (flagOf ⟨p, some (s - vd), fl⟩ ind), p⟩ :: filterIndicator R ind := by
    rw [filterIndicator, List.filterMap_cons_some, ← filterIndicator]
    show (if flagOf ⟨p, some (s - vd), fl⟩ ind = 1 then
      some (⟨some (s - vd), some (flagOf ⟨p, some (s - vd), fl⟩ ind), p⟩ : FRow)
      else none) = _
    rw [if_pos (show flagOf ⟨p, some (s - vd), fl⟩ ind = 1 from hfl)]
  have hup1 : uniquePatients (⟨some (s - vd), some (flagOf ⟨p, some (s - vd), fl⟩ ind), p⟩ ::
      filterIndicator R ind) = [p] := by
    show dedupFirst (p :: (filterIndicator R ind).map FRow.patient) = [p]
    exact dedupFirst_cons_const hallmap
  have hup2 : uniquePatients (filterIndicator R ind) = [p] := by
    refine dedupFirst_const ?_ hallmap
    intro hmapnil
    rcases hG : filterIndicator R ind with _ | _
    · exact hGne hG
    · rw [hG] at hmapnil
      cases hmapnil
  have hlbG : lastDateBefore (filterIndicator R ind) s p = none := by
    rw [lastDateBefore]
    have hnilmap : (filterIndicator R ind).filterMap (beforeDate s p) = [] := by
      rw [List.filterMap_eq_nil_iff]
      intro f hf
      obtain ⟨d, hd, h1, h2⟩ := hGdate f hf
      rw [beforeDate_some hd, if_neg]
      rintro ⟨_, hds⟩
      linarith
    rw [hnilmap]
    rfl
  have hlbH : lastDateBefore (⟨some (s - vd), some (flagOf ⟨p, some (s - vd), fl⟩ ind), p⟩ ::
      filterIndicator R ind) s p = some (s - vd) := by
    rw [lastDateBefore_prior_cons (filterIndicator R ind) s vd p p _ hvd, if_pos rfl, hlbG]
  have hadH : anchorDate (⟨some (s - vd), some (flagOf ⟨p, some (s - vd), fl⟩ ind), p⟩ ::
      filterIndicator R ind) vd s p = s - vd := by
    rw [anchorDate_of_some hlbH, ratMax, if_pos le_rfl]
  have hadG : anchorDate (filterIndicator R ind) vd s p = s - vd := anchorDate_of_none hlbG
  have hwin : inWindowRows (⟨some (s - vd), some (flagOf ⟨p, some (s - vd), fl⟩ ind), p⟩ ::
      filterIndicator R ind) s (evalEnd s len) = inWindowRows (filterIndicator R ind) s (evalEnd s len) :=
    inWindowRows_cons_prior (filterIndicator R ind) s (evalEnd s len) vd p _ hvd
  have hanc : anchorRows (⟨some (s - vd), some (flagOf ⟨p, some (s - vd), fl⟩ ind), p⟩ ::
      filterIndicator R ind) vd s = anchorRows (filterIndicator R ind) vd s := by
    rw [anchorRows, anchorRows, hup1, hup2, List.map_cons, List.map_cons, List.map_nil,
      List.map_nil, hadH, hadG]
  have hsen : sentinelRows (⟨some (s - vd), some (flagOf ⟨p, some (s - vd), fl⟩ ind), p⟩ ::
      filterIndicator R ind) (evalEnd s len) = sentinelRows (filterIndicator R ind) (evalEnd s len) := by
    rw [sentinelRows, sentinelRows, hup1, hup2]
  have hprep : prepare_df_for_concordance_ratio
      (⟨some (s - vd), some (flagOf ⟨p, some (s - vd), fl⟩ ind), p⟩ :: filterIndicator R ind)
      vd s (evalEnd s len) =
      prepare_df_for_concordance_ratio (filterIndicator R ind) vd s (evalEnd s len) := by
    rw [prepare_df_for_concordance_ratio, prepare_df_for_concordance_ratio, hwin, hanc, hsen]
  constructor
  · rw [hcons]
    exact hprep
  · rw [calc_ratio_of_concordant_period, calc_ratio_of_concordant_period, hcons, hprep]

/-- Counterexample for C8 as stated: with no restriction on the patient
having any activity, a patient with zero activity (absent from the
records) gets no prepared rows and no score row at all, while the patient
whose only activity is at the dummy date gets the anchor-plus-sentinel
timeline and receives the score 0 — so the two do not produce identical
timelines nor the same score. -/
theorem c8_counterexample :
    calc_ratio_of_concordant_period ([] : List Row) "I" 0 10 5 = [] ∧
    calc_ratio_of_concordant_period [⟨2, some (-5), [("I", 1)]⟩] "I" 0 10 5 = [(2, 0)] ∧
    prepare_df_for_concordance_ratio (filterIndicator ([] : List Row) "I") 5 0 (evalEnd 0 10) = [] ∧
    prepare_df_for_concordance_ratio (filterIndicator [⟨2, some (-5), [("I", 1)]⟩] "I")
      5 0 (evalEnd 0 10) = [⟨-5, none, 2⟩, ⟨10, none, 2⟩] := by
  decide!

/-- Witness for C8: one in-window activity at day 3, window of 10 days,
validity 5; adding the dummy-date row leaves the prepared and score frames
unchanged. -/
theorem c8_witness :
    prepare_df_for_concordance_ratio
      (filterIndicator (⟨4, some ((0 : ℚ) - 5), [("I", 1)]⟩ :: [⟨4, some 3, [("I", 1)]⟩]) "I")
        5 0 (evalEnd 0 10) =
      prepare_df_for_concordance_ratio (filterIndicator [⟨4, some 3, [("I", 1)]⟩] "I")
        5 0 (evalEnd 0 10) ∧
    calc_ratio_of_concordant_period
      (⟨4, some ((0 : ℚ) - 5), [("I", 1)]⟩ :: [⟨4, some 3, [("I", 1)]⟩]) "I" 0 10 5 =
      calc_ratio_of_concordant_period [⟨4, some 3, [("I", 1)]⟩] "I" 0 10 5 :=
  c8_dummy_date_equivalence [⟨4, some 3, [("I", 1)]⟩] [("I", 1)] "I" 0 10 5 4
    (by norm_num)
    (by intro r hr; rcases List.mem_singleton.mp hr with rfl; rfl)
    (by
      intro r hr hfr
      rcases List.mem_singleton.mp hr with rfl
      exact ⟨3, rfl, by norm_num, by norm_num [evalEnd]⟩)
    (by norm_num [alookup])
    ⟨⟨4, some 3, [("I", 1)]⟩, List.mem_singleton.mpr rfl, by norm_num [flagOf, alookup]⟩

theorem filter_sentinel_map (e : ℚ) (l : List ℕ) (hl : l.Nodup) (p : ℕ) (hp : p ∈ l) :
    ((l.map fun q => (⟨e + 1, none, q⟩ : PRow)).filter fun r => decide (r.patient = p)) =
      [⟨e + 1, none, p⟩] :=
  filter_patient_map (fun _ => e + 1) l hl p hp

/-- C10: when every row flagged 1 for the indicator for some patient has a
missing date, the score frame still contains a row for that patient,
computed from just the dummy anchor and the sentinel, and its value is 0
(the patient has no dated activity at all); the missing-date rows are
merely dropped from the computation. -/
theorem c10_missing_dates_score (df : List Row) (ind : String) (s len vd : ℚ) (p : ℕ)
    (hlen : 0 < len) (hvd : 0 ≤ vd)
    (hnat : ∀ r ∈ df, r.patient = p → flagOf r ind = 1 → r.date = none)
    (hex : ∃ r ∈ df, r.patient = p ∧ flagOf r ind = 1) :
    (p, 0) ∈ calc_ratio_of_concordant_period df ind s len vd := by
  have hFp : ∀ f ∈ filterIndicator df ind, f.patient = p → f.date = none := by
    intro f hf hfp
    rw [filterIndicator, List.mem_filterMap] at hf
    obtain ⟨r, hr, hmk⟩ := hf
    split at hmk
    · rename_i hflag1
      cases hmk
      exact hnat r hr hfp hflag1
    · cases hmk
  have hpF : p ∈ uniquePatients (filterIndicator df ind) := by
    obtain ⟨r, hr, hrp, hrf⟩ := hex
    rw [uniquePatients, mem_dedupFirst, List.mem_map]
    refine ⟨⟨r.date, some (flagOf r ind), r.patient⟩, ?_, hrp⟩
    rw [filterIndicator, List.mem_filterMap]
    exact ⟨r, hr, by rw [if_pos hrf]⟩
  have hlbF : lastDateBefore (filterIndicator df ind) s p = none := by
    rw [lastDateBefore]
    have hnil : (filterIndicator df ind).filterMap (beforeDate s p) = [] := by
      rw [List.filterMap_eq_nil_iff]
      intro f hf
      rcases hd : f.date with _ | d
      · rw [beforeDate, hd]
      · rw [beforeDate_some hd, if_neg]
        rintro ⟨hfp, _⟩
        have hnone := hFp f hf hfp
        rw [hnone] at hd
        cases hd
    rw [hnil]
    rfl
  have hanchF : anchorDate (filterIndicator df ind) vd s p = s - vd := anchorDate_of_none hlbF
  have hrle : rowLE ⟨s - vd, none, p⟩ ⟨evalEnd s len + 1, none, p⟩ :=
    Or.inr ⟨rfl, by show s - vd ≤ evalEnd s len + 1; rw [evalEnd]; linarith⟩
  have hne2 : (⟨evalEnd s len + 1, none, p⟩ : PRow) ≠ ⟨s - vd, none, p⟩ := by
    intro hc
    have hdq : evalEnd s len + 1 = s - vd := congrArg PRow.date hc
    rw [evalEnd] at hdq
    linarith
  have hfilter : ((prepare_df_for_concordance_ratio (filterIndicator df ind) vd s
      (evalEnd s len)).filter fun r => decide (r.patient = p)) =
      [⟨s - vd, none, p⟩, ⟨evalEnd s len + 1, none, p⟩] := by
    rw [prepare_df_for_concordance_ratio, filter_dedupFirst,
      filter_insertionSort rowLE, List.filter_append, List.filter_append]
    have hwinF : ((inWindowRows (filterIndicator df ind) s (evalEnd s len)).filter
        fun r => decide (r.patient = p)) = [] := by
      rw [List.filter_eq_nil_iff]
      intro a ha
      obtain ⟨hsa, hea, f, hf, hdf, _, hpf⟩ := mem_inWindowRows ha
      simp only [decide_eq_true_eq]
      intro hap
      have hnone := hFp f hf (by rw [hpf, hap])
      rw [hnone] at hdf
      cases hdf
    rw [hwinF, anchorRows, sentinelRows,
      filter_patient_map (anchorDate (filterIndicator df ind) vd s)
        (uniquePatients (filterIndicator df ind)) uniquePatients_nodup p hpF,
      filter_sentinel_map (evalEnd s len) (uniquePatients (filterIndicator df ind))
        uniquePatients_nodup p hpF,
      hanchF, List.nil_append, List.singleton_append, List.insertionSort,
      List.insertionSort, List.insertionSort, List.orderedInsert_nil,
      List.orderedInsert_of_le rowLE _ hrle]
    simp [dedupFirst, hne2]
  have hpd : patientDates (prepare_df_for_concordance_ratio (filterIndicator df ind) vd s
      (evalEnd s len)) p = [s - vd, evalEnd s len + 1] := by
    rw [patientDates, hfilter]
    rfl
  have htot : totalUncovered (prepare_df_for_concordance_ratio (filterIndicator df ind) vd s
      (evalEnd s len)) vd p = len := by
    rw [totalUncovered, uncoveredDays, hpd]
    show ratMax 0 (evalEnd s len + 1 - (s - vd) - vd) + 0 = len
    rw [ratMax_eq_max, evalEnd,
      max_eq_right (by linarith : (0 : ℚ) ≤ s + (len - 1) + 1 - (s - vd) - vd)]
    ring
  rw [calc_ratio_of_concordant_period, scoreTable, List.mem_filterMap]
  refine ⟨p, ?_, ?_⟩
  · rw [uniquePatientsP, mem_dedupFirst, List.mem_map]
    refine ⟨⟨evalEnd s len + 1, none, p⟩, ?_, rfl⟩
    have hmemf : (⟨evalEnd s len + 1, none, p⟩ : PRow) ∈
        ((prepare_df_for_concordance_ratio (filterIndicator df ind) vd s
          (evalEnd s len)).filter fun r => decide (r.patient = p)) := by
      rw [hfilter]
      simp
    exact List.mem_of_mem_filter hmemf
  · have hguard : 2 ≤ ((prepare_df_for_concordance_ratio (filterIndicator df ind) vd s
        (evalEnd s len)).filter fun r => decide (r.patient = p)).length := by
      rw [hfilter]
      norm_num
    rw [if_pos hguard, htot, sub_self, zero_div]

/-- Witness for C10: one patient whose only flagged row has a missing
date; the score frame still carries that patient with score 0. -/
theorem c10_witness :
    ((3 : ℕ), (0 : ℚ)) ∈ calc_ratio_of_concordant_period
      [⟨3, none, [("I", 1)]⟩] "I" 0 10 5 :=
  c10_missing_dates_score [⟨3, none, [("I", 1)]⟩] "I" 0 10 5 3
    (by norm_num) (by norm_num)
    (by intro r hr _ _; rcases List.mem_singleton.mp hr with rfl; rfl)
    ⟨⟨3, none, [("I", 1)]⟩, List.mem_singleton.mpr rfl, rfl, by norm_num [flagOf, alookup]⟩

theorem PRow_eq {a b : PRow} (hd : a.date = b.date) (hf : a.flag = b.flag)
    (hp : a.patient = b.patient) : a = b := by
  cases a
  cases b
  simp_all

theorem prepare_key_inj (df : List FRow) (vd s e : ℚ)
    (hvd : 0 < vd) (hse : s ≤ e) (hflag : ∀ r ∈ df, r.flag = some 1) :
    ∀ a ∈ prepare_df_for_concordance_ratio df vd s e,
      ∀ b ∈ prepare_df_for_concordance_ratio df vd s e,
      a.patient = b.patient → a.date = b.date → a = b := by
  intro a ha b hb hpp hdd
  rcases mem_prepare.mp ha with hA | hA | hA <;> rcases mem_prepare.mp hb with hB | hB | hB
  · obtain ⟨hsa, hea, fa, hfa, _, hfla, _⟩ := mem_inWindowRows hA
    obtain ⟨hsb, heb, fb, hfb, _, hflb, _⟩ := mem_inWindowRows hB
    refine PRow_eq hdd ?_ hpp
    rw [← hfla, ← hflb, hflag fa hfa, hflag fb hfb]
  · obtain ⟨hsa, _, _⟩ := mem_inWindowRows hA
    obtain ⟨_, hBeq⟩ := mem_anchorRows hB
    have hbd : b.date = anchorDate df vd s b.patient := by rw [hBeq]
    have hlt := @anchorDate_lt_start df vd s b.patient hvd
    exfalso
    rw [hdd, hbd] at hsa
    linarith
  · obtain ⟨_, hea, _⟩ := mem_inWindowRows hA
    obtain ⟨_, hBeq⟩ := mem_sentinelRows hB
    have hbd : b.date = e + 1 := by rw [hBeq]
    exfalso
    rw [hdd, hbd] at hea
    linarith
  · obtain ⟨_, hAeq⟩ := mem_anchorRows hA
    obtain ⟨hsb, _, _⟩ := mem_inWindowRows hB
    have had : a.date = anchorDate df vd s a.patient := by rw [hAeq]
    have hlt := @anchorDate_lt_start df vd s a.patient hvd
    exfalso
    rw [← hdd, had] at hsb
    linarith
  · obtain ⟨_, hAeq⟩ := mem_anchorRows hA
    obtain ⟨_, hBeq⟩ := mem_anchorRows hB
    rw [hAeq, hBeq, hpp]
  · obtain ⟨_, hAeq⟩ := mem_anchorRows hA
    obtain ⟨_, hBeq⟩ := mem_sentinelRows hB
    have had : a.date = anchorDate df vd s a.patient := by rw [hAeq]
    have hbd : b.date = e + 1 := by rw [hBeq]
    have hlt := @anchorDate_lt_start df vd s a.patient hvd
    exfalso
    rw [had, hbd] at hdd
    linarith
  · obtain ⟨_, hAeq⟩ := mem_sentinelRows hA
    obtain ⟨hsb, heb, _⟩ := mem_inWindowRows hB
    have had : a.date = e + 1 := by rw [hAeq]
    exfalso
    rw [had] at hdd
    rw [← hdd] at heb
    linarith
  · obtain ⟨_, hAeq⟩ := mem_sentinelRows hA
    obtain ⟨_, hBeq⟩ := mem_anchorRows hB
    have had : a.date = e + 1 := by rw [hAeq]
    have hbd : b.date = anchorDate df vd s b.patient := by rw [hBeq]
    have hlt := @anchorDate_lt_start df vd s b.patient hvd
    exfalso
    rw [had, hbd] at hdd
    linarith
  · obtain ⟨_, hAeq⟩ := mem_sentinelRows hA
    obtain ⟨_, hBeq⟩ := mem_sentinelRows hB
    rw [hAeq, hBeq, hpp]

/-- C4 (amended): for input as produced at the only call site (indicator
column constant 1) with validity_duration strictly positive and
evaluation_start at most evaluation_end, the prepared frame is sorted
ascending by (patient, date), has no duplicate rows and no two rows with
the same (patient, date), has at most one row dated before the evaluation
start per patient, and exactly one sentinel row dated evaluation_end + 1
per patient. -/
theorem c4_prepared_invariants (df : List FRow) (vd s e : ℚ)
    (hvd : 0 < vd) (hse : s ≤ e) (hflag : ∀ r ∈ df, r.flag = some 1) :
    List.Sorted rowLE (prepare_df_for_concordance_ratio df vd s e) ∧
    (prepare_df_for_concordance_ratio df vd s e).Nodup ∧
    List.Pairwise (fun a b : PRow => a.patient = b.patient → a.date ≠ b.date)
      (prepare_df_for_concordance_ratio df vd s e) ∧
    (∀ a ∈ prepare_df_for_concordance_ratio df vd s e,
      ∀ b ∈ prepare_df_for_concordance_ratio df vd s e,
      a.patient = b.patient → a.date < s → b.date < s → a = b) ∧
    (∀ p ∈ uniquePatients df,
      (⟨e + 1, none, p⟩ : PRow) ∈ prepare_df_for_concordance_ratio df vd s e ∧
      ∀ a ∈ prepare_df_for_concordance_ratio df vd s e,
        a.patient = p → a.date = e + 1 → a = ⟨e + 1, none, p⟩) := by
  have hsorted : List.Sorted rowLE (prepare_df_for_concordance_ratio df vd s e) := by
    rw [prepare_df_for_concordance_ratio]
    exact List.Pairwise.sublist (dedupFirst_sublist _) (List.sorted_insertionSort rowLE _)
  have hnodup : (prepare_df_for_concordance_ratio df vd s e).Nodup := by
    rw [prepare_df_for_concordance_ratio]
    exact nodup_dedupFirst
  have hinj := prepare_key_inj df vd s e hvd hse hflag
  refine ⟨hsorted, hnodup, ?_, ?_, ?_⟩
  · rw [List.pairwise_iff_forall_sublist]
    intro a b hab hpp hdd
    have hpw : List.Pairwise (fun x y : PRow => x ≠ y) [a, b] :=
      List.Pairwise.sublist hab hnodup
    have hne : a ≠ b := (List.pairwise_cons.mp hpw).1 b (List.mem_cons_self b [])
    have hmema : a ∈ prepare_df_for_concordance_ratio df vd s e :=
      hab.subset (List.mem_cons_self a [b])
    have hmemb : b ∈ prepare_df_for_concordance_ratio df vd s e :=
      hab.subset (List.mem_cons_of_mem a (List.mem_cons_self b []))
    exact hne (hinj a hmema b hmemb hpp hdd)
  · intro a ha b hb hpp hda hdb
    rcases mem_prepare.mp ha with hA | hA | hA
    · obtain ⟨hsa, _, _⟩ := mem_inWindowRows hA
      exfalso
      linarith
    · rcases mem_prepare.mp hb with hB | hB | hB
      · obtain ⟨hsb, _, _⟩ := mem_inWindowRows hB
        exfalso
        linarith
      · obtain ⟨_, hAeq⟩ := mem_anchorRows hA
        obtain ⟨_, hBeq⟩ := mem_anchorRows hB
        rw [hAeq, hBeq, hpp]
      · obtain ⟨_, hBeq⟩ := mem_sentinelRows hB
        have hbd : b.date = e + 1 := by rw [hBeq]
        exfalso
        rw [hbd] at hdb
        linarith
    · obtain ⟨_, hAeq⟩ := mem_sentinelRows hA
      have had : a.date = e + 1 := by rw [hAeq]
      exfalso
      rw [had] at hda
      linarith
  · intro p hp
    constructor
    · exact mem_prepare.mpr (Or.inr (Or.inr (List.mem_map.mpr ⟨p, hp, rfl⟩)))
    · intro a ha hap hae
      rcases mem_prepare.mp ha with hA | hA | hA
      · obtain ⟨_, hea, _⟩ := mem_inWindowRows hA
        exfalso
        rw [hae] at hea
        linarith
      · obtain ⟨_, hAeq⟩ := mem_anchorRows hA
        have had : a.date = anchorDate df vd s a.patient := by rw [hAeq]
        have hlt := @anchorDate_lt_start df vd s a.patient hvd
        exfalso
        rw [hae] at had
        linarith
      · obtain ⟨_, hAeq⟩ := mem_sentinelRows hA
        rw [hAeq, hap]

/-- Counterexample for C4 as stated: with validity_duration 0 (allowed by
the stated hypothesis validity_duration ≥ 0) the clipped anchor can
coincide with an in-window date at the evaluation start: the patient has
two rows dated day 0, one real and one anchor, since the exact-duplicate
drop distinguishes them by the indicator column. -/
theorem c4_counterexample :
    prepare_df_for_concordance_ratio [⟨some (-3), some 1, 1⟩, ⟨some 0, some 1, 1⟩] 0 0 9 =
      [⟨0, some 1, 1⟩, ⟨0, none, 1⟩, ⟨10, none, 1⟩] ∧
    ¬ List.Pairwise (fun a b : PRow => a.patient = b.patient → a.date ≠ b.date)
      (prepare_df_for_concordance_ratio [⟨some (-3), some 1, 1⟩, ⟨some 0, some 1, 1⟩] 0 0 9) := by
  refine ⟨by decide!, ?_⟩
  intro hpw
  rw [(by decide! : prepare_df_for_concordance_ratio
    [⟨some (-3), some 1, 1⟩, ⟨some 0, some 1, 1⟩] 0 0 9 =
      [⟨0, some 1, 1⟩, ⟨0, none, 1⟩, ⟨10, none, 1⟩])] at hpw
  have h1 := (List.pairwise_cons.mp hpw).1 ⟨0, none, 1⟩
    (List.mem_cons_self _ _)
  exact h1 rfl rfl

/-- Witness for C4 at a concrete input with validity_duration 5 and window
day 0 to day 9: the prepared frame is sorted, duplicate-free on (patient,
date), and patient 1 has their sentinel row at day 10. -/
theorem c4_witness :
    List.Sorted rowLE (prepare_df_for_concordance_ratio
      [⟨some (-3), some 1, 1⟩, ⟨some 2, some 1, 1⟩] 5 0 9) ∧
    (prepare_df_for_concordance_ratio
      [⟨some (-3), some 1, 1⟩, ⟨some 2, some 1, 1⟩] 5 0 9).Nodup ∧
    List.Pairwise (fun a b : PRow => a.patient = b.patient → a.date ≠ b.date)
      (prepare_df_for_concordance_ratio
        [⟨some (-3), some 1, 1⟩, ⟨some 2, some 1, 1⟩] 5 0 9) ∧
    (⟨9 + 1, none, 1⟩ : PRow) ∈ prepare_df_for_concordance_ratio
      [⟨some (-3), some 1, 1⟩, ⟨some 2, some 1, 1⟩] 5 0 9 := by
  have h := c4_prepared_invariants [⟨some (-3), some 1, 1⟩, ⟨some 2, some 1, 1⟩] 5 0 9
    (by norm_num) (by norm_num) (by decide!)
  exact ⟨h.1, h.2.1, h.2.2.1, (h.2.2.2.2 1 (by decide!)).1⟩

/-- Witness for C7: a patient with activities exactly every 5 days across
a 10-day window (validity_duration 5) has all gaps at most 5 and score
exactly 1. -/
theorem c7_witness :
    totalUncovered (prepare_df_for_concordance_ratio
      (filterIndicator [⟨1, some 0, [("I", 1)]⟩, ⟨1, some 5, [("I", 1)]⟩] "I")
      5 0 (evalEnd 0 10)) 5 1 = 0 ∧ (1 : ℚ) = 1 :=
  c7_perfect_coverage [⟨1, some 0, [("I", 1)]⟩, ⟨1, some 5, [("I", 1)]⟩]
    "I" 0 10 5 1 1 (by norm_num) (by decide!) (by decide!)

theorem filterMap_id_map {α β : Type} (f : α → Option β) (l : List α) :
    (l.map f).filterMap id = l.filterMap f := by
  induction l with
  | nil => rfl
  | cons x xs ih =>
    rcases hx : f x with _ | b <;>
      simp [List.filterMap_cons, List.map_cons, hx, ih]

/-- C5: when more than one indicator is requested, the added
`concordance_total` column equals, per patient row, the arithmetic mean of
that row's present per-indicator concordance values, with missing scores
excluded from the average rather than treated as 0; concretely, a patient
with scores 0.8 and 0.6 gets total 0.7, and a patient scored only for one
indicator gets exactly that score as total. -/
theorem c5_total_mean (df : List Row) (s len : ℚ) (indicators : List String)
    (vps : List (String × ℚ)) (t : List ScoreRow)
    (hok : calc_concordance_with_ratio df s len indicators vps = .ok t)
    (hmulti : 1 < indicators.length) :
    (∀ r ∈ t, ∃ base : List (String × Option ℚ),
      r.scores = base ++ [("concordance_total", specMeanPresent base)]) ∧
    calc_concordance_with_ratio
      [⟨1, some 0, [("A", 1), ("B", 0)]⟩, ⟨1, some 7, [("A", 1), ("B", 0)]⟩,
       ⟨1, some 0, [("A", 0), ("B", 1)]⟩, ⟨1, some 9, [("A", 0), ("B", 1)]⟩,
       ⟨2, some 0, [("A", 1), ("B", 0)]⟩, ⟨2, some 7, [("A", 1), ("B", 0)]⟩]
      0 10 ["A", "B"] [("A", 5), ("B", 5)] =
      .ok [⟨1, [("concordance_A", some (4 / 5)), ("concordance_B", some (3 / 5)),
              ("concordance_total", some (7 / 10))]⟩,
           ⟨2, [("concordance_A", some (4 / 5)), ("concordance_B", none),
              ("concordance_total", some (4 / 5))]⟩] := by
  refine ⟨?_, by decide!⟩
  simp only [calc_concordance_with_ratio] at hok
  split at hok
  · cases hok
  · split at hok
    · cases hok
    · split at hok
      · cases hok
      · split at hok
        · cases hok
        · split at hok
          · cases hok
          · cases hok
            intro r hr
            rw [addTotal, List.mem_map] at hr
            obtain ⟨r0, hr0, rfl⟩ := hr
            refine ⟨r0.scores, ?_⟩
            show r0.scores ++ [("concordance_total",
              rowMean ((r0.scores.filter fun kv => startsWithConcordance kv.1).map Prod.snd))] =
              r0.scores ++ [("concordance_total", specMeanPresent r0.scores)]
            rw [rowMean, specMeanPresent, filterMap_id_map]
            by_cases hv : ((r0.scores.filter fun kv => startsWithConcordance kv.1).filterMap
                Prod.snd) = []
            · rw [if_pos (by rw [hv]; rfl), if_pos hv]
            · rw [if_neg (fun h => hv (List.length_eq_zero.mp h)), if_neg hv]

/-- Witness for C5 at the two-indicator scenario of the claim: patient 1
averages 0.8 and 0.6 to 0.7, patient 2 is scored only for A and gets 0.8
as total. -/
theorem c5_witness :
    calc_concordance_with_ratio
      [⟨1, some 0, [("A", 1), ("B", 0)]⟩, ⟨1, some 7, [("A", 1), ("B", 0)]⟩,
       ⟨1, some 0, [("A", 0), ("B", 1)]⟩, ⟨1, some 9, [("A", 0), ("B", 1)]⟩,
       ⟨2, some 0, [("A", 1), ("B", 0)]⟩, ⟨2, some 7, [("A", 1), ("B", 0)]⟩]
      0 10 ["A", "B"] [("A", 5), ("B", 5)] =
      .ok [⟨1, [("concordance_A", some (4 / 5)), ("concordance_B", some (3 / 5)),
              ("concordance_total", some (7 / 10))]⟩,
           ⟨2, [("concordance_A", some (4 / 5)), ("concordance_B", none),
              ("concordance_total", some (4 / 5))]⟩] := by
  have h := c5_total_mean
    [⟨1, some 0, [("A", 1), ("B", 0)]⟩, ⟨1, some 7, [("A", 1), ("B", 0)]⟩,
     ⟨1, some 0, [("A", 0), ("B", 1)]⟩, ⟨1, some 9, [("A", 0), ("B", 1)]⟩,
     ⟨2, some 0, [("A", 1), ("B", 0)]⟩, ⟨2, some 7, [("A", 1), ("B", 0)]⟩]
    0 10 ["A", "B"] [("A", 5), ("B", 5)]
    [⟨1, [("concordance_A", some (4 / 5)), ("concordance_B", some (3 / 5)),
       ("concordance_total", some (7 / 10))]⟩,
     ⟨2, [("concordance_A", some (4 / 5)), ("concordance_B", none),
       ("concordance_total", some (4 / 5))]⟩]
    (by decide!) (by norm_num)
  exact h.2

/-- C6: when some requested indicator lacks a (case-insensitively matched)
entry in the validity-duration mapping, and the earlier validations pass,
the computation stops with the fatal error naming exactly the offending
indicators — each of which indeed has no entry — and no score table is
returned. -/
theorem c6_missing_validity_period (df : List Row) (s len : ℚ) (indicators : List String)
    (vps : List (String × ℚ))
    (hdf : df ≠ []) (hlen : 0 < len) (hinds : indicators ≠ [])
    (hcols : (indicators.filter fun ind => !hasCol df ind) = [])
    (hmiss : (indicators.filter fun ind =>
      decide (dictGet (lowerKeys vps) (lowerStr ind) = none)) ≠ []) :
    calc_concordance_with_ratio df s len indicators vps =
      .error (.missingValidityPeriods (indicators.filter fun ind =>
        decide (dictGet (lowerKeys vps) (lowerStr ind) = none))) ∧
    ∀ ind ∈ indicators.filter fun ind =>
        decide (dictGet (lowerKeys vps) (lowerStr ind) = none),
      dictGet (lowerKeys vps) (lowerStr ind) = none := by
  constructor
  · simp only [calc_concordance_with_ratio]
    rw [if_neg hdf, if_neg (not_le.mpr hlen), if_neg hinds,
      if_neg (fun h => h hcols), if_pos hmiss]
  · intro ind hind
    have hd := (List.mem_filter.mp hind).2
    simpa using hd

/-- Witness for C6: indicator B requested, only indicator a present in the
mapping; the computation returns the fatal error naming B. -/
theorem c6_witness :
    calc_concordance_with_ratio [⟨1, some 0, [("A", 1), ("B", 1)]⟩] 0 10 ["A", "B"]
      [("a", 5)] = .error (.missingValidityPeriods ["B"]) := by
  have h := c6_missing_validity_period [⟨1, some 0, [("A", 1), ("B", 1)]⟩] 0 10 ["A", "B"]
    [("a", 5)] (by decide!) (by norm_num) (by decide!) (by decide!) (by decide!)
  exact h.1.trans (by decide!)

end ConcordanceModel
